import Mathlib

/-!
Verification development for `src/streamlit_app.py`, a file-backed
cryptocurrency portfolio tracker.

Modelling conventions:
* A Python `dict` is an association list (`Dict`) whose keys are unique and
  kept in insertion order; `Dict.insert` overwrites in place as Python does.
* Python floats are modelled as rationals (`Rat`).
* The on-disk state (the `user_data` directory) is an explicit `FSState`
  record: the shared `users.json` file (present or absent) and the per-user
  portfolio files keyed by username.  `json.dump`/`json.load` are assumed to
  round-trip the stored structures faithfully.
* `datetime.now()` is threaded as an explicit string parameter (one per call
  site in the source).
* `yfinance` is an oracle parameter: for each ticker it either raises
  (`Except.error`) or returns the day's price history as a list of closes.
* `hashlib.sha256(...).hexdigest()` is implemented bit-faithfully over the
  UTF-8 bytes of the password, with 32-bit words as `Nat` reduced mod `2^32`.
-/

/-- Association-list model of a Python dict: entries in insertion order, keys unique. -/
abbrev Dict (α β : Type) : Type := List (α × β)

namespace Dict

/-- Python `d[k]` / `d.get(k)`: value at the first (hence unique) matching key. -/
def get? {α β : Type} [DecidableEq α] : Dict α β → α → Option β
  | [], _ => none
  | (k, v) :: rest, a => if k = a then some v else get? rest a

/-- Python `d.get(k, dflt)`. -/
def getD {α β : Type} [DecidableEq α] (l : Dict α β) (a : α) (dflt : β) : β :=
  (get? l a).getD dflt

/-- Python `k in d`. -/
def hasKey {α β : Type} [DecidableEq α] (l : Dict α β) (a : α) : Bool :=
  (get? l a).isSome

/-- Python `d[k] = v`: overwrite in place when the key exists, else append at the end. -/
def insert {α β : Type} [DecidableEq α] : Dict α β → α → β → Dict α β
  | [], a, b => [(a, b)]
  | (k, v) :: rest, a, b => if k = a then (k, b) :: rest else (k, v) :: insert rest a b

end Dict

/-- Content of one per-user portfolio file, `{"portfolio": ..., "last_updated": ...}`
as written by `save_user_portfolio` (lines 52-55 of the source). -/
structure PortfolioFile where
  portfolio : Dict String Rat
  last_updated : String
deriving DecidableEq

/-- The on-disk state owned by the program: the shared `users.json` credential
file (absent or a username-to-digest dict) and the per-user portfolio files
(keyed by username; a key present means the file `{username}.json` exists).
The two components are distinct paths — faithful for every username except
the reserved name "users", whose portfolio path `f"{username}.json"` is
`users.json` itself; the file-level `DiskState` model below captures that
collision exactly and settles the claim it affects. -/
structure FSState where
  users_file : Option (Dict String String)
  portfolio_files : Dict String PortfolioFile
deriving DecidableEq

/-- The fresh on-disk state: no `users.json`, no portfolio files. -/
def FSInit : FSState := ⟨none, []⟩

/-- The Streamlit session state fields used by the program
(`init_session_state`, lines 105-113). -/
structure Session where
  authenticated : Bool
  username : String
  portfolio : Dict String Rat
  last_updated : String
deriving DecidableEq

/-- Session state as initialised by `init_session_state` (lines 105-113). -/
def init_session : Session := ⟨false, "", [], ""⟩

/-- Source lines 47-60: `save_user_portfolio(username, portfolio)` writes
`{"portfolio": portfolio, "last_updated": datetime.now().strftime(...)}` to
`{username}.json` and returns `True`.  `now` is the formatted clock reading.
Faithful for usernames other than "users"; there the write lands on
`users.json` itself (see `Disk.save_user_portfolio`). -/
def save_user_portfolio (now username : String) (portfolio : Dict String Rat)
    (s : FSState) : FSState × Bool :=
  (⟨s.users_file, Dict.insert s.portfolio_files username ⟨portfolio, now⟩⟩, true)

/-- Source lines 62-71: `load_user_portfolio(username)` returns the stored
`(portfolio, last_updated)` when `{username}.json` exists, else `({}, "")`. -/
def load_user_portfolio (username : String) (s : FSState) : Dict String Rat × String :=
  match Dict.get? s.portfolio_files username with
  | some data => (data.portfolio, data.last_updated)
  | none => ([], "")

/-- Source lines 73-75: `user_exists(username)` is existence of `{username}.json`.
Faithful for usernames other than "users"; there the tested path is
`users.json` itself (see `Disk.user_exists`). -/
def user_exists (username : String) (s : FSState) : Bool :=
  (Dict.get? s.portfolio_files username).isSome

/-- Source lines 77-90: `save_user_credentials(username, password_hash)` reads
`users.json` when present (else starts from `{}`), sets `users[username]`, and
writes the file back. -/
def save_user_credentials (username password_hash : String) (s : FSState) : FSState :=
  let users : Dict String String :=
    match s.users_file with
    | some users => users
    | none => []
  ⟨some (Dict.insert users username password_hash), s.portfolio_files⟩

/-- Source lines 92-102: `check_credentials(username, password_hash)` is false
when `users.json` is absent, else `username in users and users[username] == password_hash`. -/
def check_credentials (username password_hash : String) (s : FSState) : Bool :=
  match s.users_file with
  | none => false
  | some users =>
    Dict.hasKey users username && (Dict.get? users username == some password_hash)

/-- The digest `users.json` currently stores for a username, if any. -/
def storedDigest (s : FSState) (username : String) : Option String :=
  match s.users_file with
  | none => none
  | some users => Dict.get? users username

/-!
SHA-256 (FIPS 180-4), the algorithm behind `hashlib.sha256` used at source
line 45.  Words are `Nat` values kept below `2 ^ 32` by explicit reduction.
-/

/-- Modulus of a 32-bit word. -/
def MOD32 : Nat := 4294967296

/-- Right rotation of a 32-bit word by `n` places. -/
def rotr (n w : Nat) : Nat := w / 2 ^ n + w % 2 ^ n * 2 ^ (32 - n)

/-- Logical right shift. -/
def shr (n w : Nat) : Nat := w / 2 ^ n

/-- Message-schedule function sigma0. -/
def ssig0 (w : Nat) : Nat := rotr 7 w ^^^ rotr 18 w ^^^ shr 3 w

/-- Message-schedule function sigma1. -/
def ssig1 (w : Nat) : Nat := rotr 17 w ^^^ rotr 19 w ^^^ shr 10 w

/-- Compression function Sigma0. -/
def bsig0 (a : Nat) : Nat := rotr 2 a ^^^ rotr 13 a ^^^ rotr 22 a

/-- Compression function Sigma1. -/
def bsig1 (e : Nat) : Nat := rotr 6 e ^^^ rotr 11 e ^^^ rotr 25 e

/-- Choice function. -/
def chFn (e f g : Nat) : Nat := e &&& f ^^^ (e ^^^ (MOD32 - 1)) &&& g

/-- Majority function. -/
def majFn (a b c : Nat) : Nat := a &&& b ^^^ a &&& c ^^^ b &&& c

/-- The 64 SHA-256 round constants of FIPS 180-4, written in decimal. -/
def sha256K : List Nat :=
  [1116352408, 1899447441, 3049323471, 3921009573,
   961987163, 1508970993, 2453635748, 2870763221,
   3624381080, 310598401, 607225278, 1426881987,
   1925078388, 2162078206, 2614888103, 3248222580,
   3835390401, 4022224774, 264347078, 604807628,
   770255983, 1249150122, 1555081692, 1996064986,
   2554220882, 2821834349, 2952996808, 3210313671,
   3336571891, 3584528711, 113926993, 338241895,
   666307205, 773529912, 1294757372, 1396182291,
   1695183700, 1986661051, 2177026350, 2456956037,
   2730485921, 2820302411, 3259730800, 3345764771,
   3516065817, 3600352804, 4094571909, 275423344,
   430227734, 506948616, 659060556, 883997877,
   958139571, 1322822218, 1537002063, 1747873779,
   1955562222, 2024104815, 2227730452, 2361852424,
   2428436474, 2756734187, 3204031479, 3329325298]

/-- The eight 32-bit working variables of SHA-256. -/
structure Hs where
  a : Nat
  b : Nat
  c : Nat
  d : Nat
  e : Nat
  f : Nat
  g : Nat
  h : Nat

/-- The SHA-256 initial hash value, written in decimal. -/
def sha256H0 : Hs :=
  ⟨1779033703, 3144134277, 1013904242, 2773480762,
   1359893119, 2600822924, 528734635, 1541459225⟩

/-- Big-endian 8-byte encoding of the 64-bit message bit length. -/
def lenBytes (n : Nat) : List Nat :=
  [n / 2 ^ 56 % 256, n / 2 ^ 48 % 256, n / 2 ^ 40 % 256, n / 2 ^ 32 % 256,
   n / 2 ^ 24 % 256, n / 2 ^ 16 % 256, n / 2 ^ 8 % 256, n % 256]

/-- SHA-256 padding: append `0x80`, zeros up to 56 mod 64 bytes, then the bit length. -/
def padMessage (msg : List Nat) : List Nat :=
  msg ++ [128] ++ List.replicate ((119 - msg.length % 64) % 64) 0 ++ lenBytes (8 * msg.length)

/-- Group bytes into big-endian 32-bit words. -/
def toWords : List Nat → List Nat
  | b0 :: b1 :: b2 :: b3 :: rest =>
    (b0 * 2 ^ 24 + b1 * 2 ^ 16 + b2 * 2 ^ 8 + b3) :: toWords rest
  | _ => []

/-- Split the padded message into 64-byte blocks. -/
def chunks64 (l : List Nat) : List (List Nat) :=
  match l with
  | [] => []
  | x :: xs => ((x :: xs).take 64) :: chunks64 ((x :: xs).drop 64)
termination_by l.length
decreasing_by simp [List.length_drop]; omega

/-- Extend a 16-word block schedule by `n` further words. -/
def extendSchedule (w : List Nat) : Nat → List Nat
  | 0 => w
  | n + 1 =>
    let ws := extendSchedule w n
    ws ++ [(ssig1 (ws.getD (ws.length - 2) 0) + ws.getD (ws.length - 7) 0 +
            ssig0 (ws.getD (ws.length - 15) 0) + ws.getD (ws.length - 16) 0) % MOD32]

/-- One round of the SHA-256 compression function. -/
def compressRound (st : Hs) (k w : Nat) : Hs :=
  let t1 := (st.h + bsig1 st.e + chFn st.e st.f st.g + k + w) % MOD32
  let t2 := (bsig0 st.a + majFn st.a st.b st.c) % MOD32
  ⟨(t1 + t2) % MOD32, st.a, st.b, st.c, (st.d + t1) % MOD32, st.e, st.f, st.g⟩

/-- Process one 64-byte block. -/
def compressBlock (H : Hs) (block : List Nat) : Hs :=
  let w := extendSchedule (toWords block) 48
  let st := (sha256K.zip w).foldl (fun st kw => compressRound st kw.1 kw.2) H
  ⟨(H.a + st.a) % MOD32, (H.b + st.b) % MOD32, (H.c + st.c) % MOD32, (H.d + st.d) % MOD32,
   (H.e + st.e) % MOD32, (H.f + st.f) % MOD32, (H.g + st.g) % MOD32, (H.h + st.h) % MOD32⟩

/-- SHA-256 of a byte list, as the eight final hash words. -/
def sha256words (msg : List Nat) : Hs :=
  (chunks64 (padMessage msg)).foldl compressBlock sha256H0

/-- The sixteen lowercase hex digits, as `hexdigest` emits them. -/
def hexDigitChars : List Char := "0123456789abcdef".data

/-- Hex digit of a nibble. -/
def hexChar (n : Nat) : Char := hexDigitChars.getD n '0'

/-- The eight hex characters of one 32-bit word, most significant first. -/
def wordHexChars (w : Nat) : List Char :=
  [hexChar (w / 16 ^ 7 % 16), hexChar (w / 16 ^ 6 % 16), hexChar (w / 16 ^ 5 % 16),
   hexChar (w / 16 ^ 4 % 16), hexChar (w / 16 ^ 3 % 16), hexChar (w / 16 ^ 2 % 16),
   hexChar (w / 16 % 16), hexChar (w % 16)]

/-- The 64 hex characters of the digest. -/
def hsHexChars (H : Hs) : List Char :=
  wordHexChars H.a ++ wordHexChars H.b ++ wordHexChars H.c ++ wordHexChars H.d ++
  wordHexChars H.e ++ wordHexChars H.f ++ wordHexChars H.g ++ wordHexChars H.h

/-- `hashlib.sha256(msg).hexdigest()` for a byte list `msg`. -/
def sha256hex (msg : List Nat) : String := ⟨hsHexChars (sha256words msg)⟩

/-- UTF-8 encoding of one character, as Python's `str.encode()` produces. -/
def utf8Bytes (c : Char) : List Nat :=
  let n := c.toNat
  if n < 128 then [n]
  else if n < 2048 then [192 + n / 64, 128 + n % 64]
  else if n < 65536 then [224 + n / 4096, 128 + n / 64 % 64, 128 + n % 64]
  else [240 + n / 262144, 128 + n / 4096 % 64, 128 + n / 64 % 64, 128 + n % 64]

/-- Python `s.encode()`: the UTF-8 bytes of a string. -/
def strBytes (s : String) : List Nat := (s.data.map utf8Bytes).flatten

/-- Source lines 43-45: `hash_password(password)` is the SHA-256 hex digest of
the UTF-8 encoding of the password. -/
def hash_password (password : String) : String := sha256hex (strBytes password)

/-- Python `ticker.split('-')[0]`: the characters before the first dash
(the whole string when no dash occurs), source line 32. -/
def dashHead (s : String) : String := ⟨s.data.takeWhile (fun c => c != '-')⟩

/-- One iteration of the loop of `get_crypto_data` (source lines 23-39): query
the oracle for a ticker; on an exception the accumulator is unchanged (the
error becomes a warning), on an empty history it is unchanged (a warning), and
otherwise `data[ticker.split('-')[0]]` is set to the last close of the history.
The fixed `time.sleep(0.5)` pause has no effect on the returned data. -/
def fetchTicker (oracle : String → Except String (List Rat))
    (data : Dict String Rat) (ticker : String) : Dict String Rat :=
  match oracle ticker with
  | Except.error _ => data
  | Except.ok hist =>
    if hist.isEmpty then data
    else Dict.insert data (dashHead ticker) (hist.getLastD 0)

/-- Source lines 18-41: `get_crypto_data(symbols)` maps each symbol to the
ticker `f"{symbol}-USD"`, folds the per-ticker fetch over an initially empty
dict, and returns the accumulated dict.  `oracle` stands for
`yf.Ticker(t).history(period="1d")`: an exception or the day's close prices. -/
def get_crypto_data (oracle : String → Except String (List Rat))
    (symbols : List String) : Dict String Rat :=
  (symbols.map (fun symbol => symbol ++ "-USD")).foldl (fetchTicker oracle) []

/-- The price `get_crypto_data` would record for one symbol on its own:
`none` when the query raises or returns no rows, else the latest close. -/
def outcomeOf (oracle : String → Except String (List Rat)) (symbol : String) : Option Rat :=
  match oracle (symbol ++ "-USD") with
  | Except.error _ => none
  | Except.ok hist => if hist.isEmpty then none else some (hist.getLastD 0)

/-- A sample market-data oracle: "BTC-USD" has one close of 3, every other
ticker query raises. -/
def oracleW : String → Except String (List Rat) :=
  fun t => if t = "BTC-USD" then Except.ok [3] else Except.error "request failed"

/-- A sample market-data oracle whose only data is for the ticker "A-B-USD". -/
def oracleDash : String → Except String (List Rat) :=
  fun t => if t = "A-B-USD" then Except.ok [5] else Except.error "request failed"

/-- Source lines 115-125: `login_user` hashes the password, checks credentials,
and on success fills the session from the stored portfolio; on mismatch it
returns `False` leaving the session untouched. -/
def login_user (username password : String) (s : FSState) (sess : Session) :
    Session × Bool :=
  let password_hash := hash_password password
  if check_credentials username password_hash s then
    let loaded := load_user_portfolio username s
    (⟨true, username, loaded.1, loaded.2⟩, true)
  else (sess, false)

/-- Source lines 127-135: `register_user` returns `False` when `user_exists`,
else saves the hashed credentials, creates an empty portfolio file, and
returns `True`.  `now` is the clock reading of the portfolio save. -/
def register_user (now username password : String) (s : FSState) : FSState × Bool :=
  if user_exists username s then (s, false)
  else
    let s1 := save_user_credentials username (hash_password password) s
    let s2 := (save_user_portfolio now username [] s1).1
    (s2, true)

/-- Source lines 137-141: `logout_user` clears the session. -/
def logout_user (_sess : Session) : Session := ⟨false, "", [], ""⟩

/-- Source lines 223-231 (the Save Changes branch of `show_portfolio_page`):
drop non-positive amounts from the edited portfolio, persist the result, and
refresh the in-memory snapshot and timestamp.  `nowSave` and `nowSession` are
the two separate `datetime.now()` readings (lines 54 and 230). -/
def updatePortfolio (nowSave nowSession username : String)
    (edited_portfolio : Dict String Rat) (s : FSState) (sess : Session) :
    FSState × Session :=
  let pruned := edited_portfolio.filter (fun kv => decide (0 < kv.2))
  let s1 := (save_user_portfolio nowSave username pruned s).1
  (s1, { sess with portfolio := pruned, last_updated := nowSession })

/-- Source line 238: the held entries whose symbol has a fetched price. -/
def portfolio_for_display (portfolio crypto_prices : Dict String Rat) : Dict String Rat :=
  portfolio.filter (fun kv => Dict.hasKey crypto_prices kv.1)

/-- Source line 239: `sum(d.get(coin, 0) * crypto_prices.get(coin, 0) for coin in d)`
where `d = portfolio_for_display`. -/
def total_value (portfolio crypto_prices : Dict String Rat) : Rat :=
  let d := portfolio_for_display portfolio crypto_prices
  ((d.map Prod.fst).map
    (fun coin => Dict.getD d coin 0 * Dict.getD crypto_prices coin 0)).sum

/-!
File-level model of the `user_data` directory.

The split `FSState` above is faithful for every username except the reserved
name "users": there `os.path.join(DATA_DIR, f"{username}.json")` is the very
path `os.path.join(DATA_DIR, "users.json")` that holds the shared credential
record, so the portfolio file of "users" and the credential file are one file.
The definitions below model the directory as it really is on disk — one
mapping from filename to JSON content — so that this collision is captured
exactly.  The persistence functions of the source are re-translated over this
state (same line-by-line structure as above, but writing through filenames).
-/

/-- Content of a JSON file: the values this program reads and writes are
strings, numbers, and objects. -/
inductive Json
  | str (s : String)
  | num (q : Rat)
  | obj (members : List (String × Json))

/-- Python equality of a decoded JSON value with a string: true exactly when
the value is that string (an object or a number never equals a `str`). -/
def Json.eqString : Json → String → Bool
  | Json.str s, t => s == t
  | _, _ => false

/-- The `user_data` directory as it is on disk: one mapping from filename to
the JSON content stored there. -/
abbrev DiskState : Type := Dict String Json

namespace Disk

/-- The filename `f"{username}.json"` used by the portfolio functions and by
`user_exists` (source lines 49, 64, 75). -/
def fileOf (username : String) : String := username ++ ".json"

/-- The credential filename `"users.json"` (source lines 79, 94).  Note that
`fileOf "users"` is this very filename. -/
def USERS_FILE : String := "users.json"

/-- The holdings dict as `json.dump` serialises it inside the record object. -/
def encodeHoldings (portfolio : Dict String Rat) : Json :=
  Json.obj (portfolio.map (fun kv => (kv.1, Json.num kv.2)))

/-- Source lines 47-60 over the file-level state: write the record object
`{"portfolio": ..., "last_updated": now}` to `f"{username}.json"` — for the
username "users" this is the credential file itself — and return `True`. -/
def save_user_portfolio (now username : String) (portfolio : Dict String Rat)
    (d : DiskState) : DiskState × Bool :=
  (Dict.insert d (fileOf username)
    (Json.obj [("portfolio", encodeHoldings portfolio), ("last_updated", Json.str now)]),
   true)

/-- Source lines 62-71 over the file-level state: read `f"{username}.json"`
when it exists and return `(data.get("portfolio", {}), data.get("last_updated", ""))`,
else `({}, "")`.  The non-object branch is unreachable for files this program
writes (they are always JSON objects); Python's `.get` would raise there. -/
def load_user_portfolio (username : String) (d : DiskState) : Json × Json :=
  match Dict.get? d (fileOf username) with
  | some (Json.obj data) =>
    (Dict.getD data "portfolio" (Json.obj []), Dict.getD data "last_updated" (Json.str ""))
  | some _ => (Json.obj [], Json.str "")
  | none => (Json.obj [], Json.str "")

/-- Source lines 73-75 over the file-level state: `os.path.exists` of
`f"{username}.json"` — true for the username "users" whenever the credential
file exists, whatever its content. -/
def user_exists (username : String) (d : DiskState) : Bool :=
  Dict.hasKey d (fileOf username)

/-- Source lines 77-90 over the file-level state: read `users.json` when
present (else start from `{}`), set `users[username]`, write the file back.
The non-object branch cannot arise from this program's writes (Python's item
assignment would raise on a non-dict). -/
def save_user_credentials (username password_hash : String) (d : DiskState) : DiskState :=
  let users : List (String × Json) :=
    match Dict.get? d USERS_FILE with
    | some (Json.obj users) => users
    | some _ => []
    | none => []
  Dict.insert d USERS_FILE (Json.obj (Dict.insert users username (Json.str password_hash)))

/-- Source lines 92-102 over the file-level state: false when `users.json` is
absent, else `username in users and users[username] == password_hash` on the
decoded object — faithful even when the object is a portfolio record (its keys
are then "portfolio" and "last_updated", and `Json.eqString` is Python's
comparison of the stored value with the digest string).  The non-object
branches cannot arise from this program's writes. -/
def check_credentials (username password_hash : String) (d : DiskState) : Bool :=
  match Dict.get? d USERS_FILE with
  | none => false
  | some (Json.obj users) =>
    (match Dict.get? users username with
     | some v => Json.eqString v password_hash
     | none => false)
  | some _ => false

/-- The digest value stored for a username in the credential file, if the file
exists, holds an object, and has that key. -/
def storedDigest (d : DiskState) (username : String) : Option Json :=
  match Dict.get? d USERS_FILE with
  | some (Json.obj users) => Dict.get? users username
  | _ => none

/-- Source lines 127-135 over the file-level state: `register_user` composed
from the file-level pieces.  For username "users" the `save_user_portfolio`
call overwrites the credential entry `save_user_credentials` just wrote. -/
def register_user (now username password : String) (d : DiskState) : DiskState × Bool :=
  if user_exists username d then (d, false)
  else
    let d1 := save_user_credentials username (hash_password password) d
    let d2 := (save_user_portfolio now username [] d1).1
    (d2, true)

end Disk

/-!
Helper lemmas about the dict model.
-/

namespace Dict

theorem get?_insert_self {α β : Type} [DecidableEq α] (l : Dict α β) (a : α) (b : β) :
    get? (insert l a b) a = some b := by
  induction l with
  | nil => simp [insert, get?]
  | cons kv rest ih =>
    obtain ⟨k, v⟩ := kv
    by_cases h : k = a
    · simp [insert, get?, h]
    · simp [insert, get?, h, ih]

theorem get?_insert_ne {α β : Type} [DecidableEq α] (l : Dict α β) (a a' : α) (b : β)
    (h : a' ≠ a) : get? (insert l a b) a' = get? l a' := by
  have haa : a ≠ a' := fun hh => h hh.symm
  induction l with
  | nil => simp [insert, get?, haa]
  | cons kv rest ih =>
    obtain ⟨k, v⟩ := kv
    by_cases hk : k = a
    · subst hk
      simp [insert, get?, haa]
    · simp only [insert, if_neg hk, get?]
      by_cases hk' : k = a'
      · simp [hk']
      · simp [hk', ih]

theorem hasKey_insert {α β : Type} [DecidableEq α] (l : Dict α β) (a a' : α) (b : β)
    (h : hasKey (insert l a b) a' = true) : a' = a ∨ hasKey l a' = true := by
  by_cases ha : a' = a
  · exact Or.inl ha
  · right
    rw [hasKey, get?_insert_ne l a a' b ha] at h
    exact h

theorem get?_filter_key {α β : Type} [DecidableEq α] (l : Dict α β) (f : α → Bool) (a : α) :
    get? (l.filter fun kv => f kv.1) a = if f a then get? l a else none := by
  induction l with
  | nil => by_cases h : f a <;> simp [get?, h]
  | cons kv rest ih =>
    obtain ⟨k, v⟩ := kv
    by_cases hk : f k
    · rw [List.filter_cons_of_pos (by simpa using hk)]
      by_cases hka : k = a
      · subst hka
        simp [get?, hk]
      · simp [get?, hka, ih]
    · rw [List.filter_cons_of_neg (by simpa using hk)]
      by_cases hka : k = a
      · subst hka
        simp [get?, hk, ih]
      · simp only [get?, if_neg hka] at *
        exact ih

theorem get?_eq_some_of_mem_nodup {α β : Type} [DecidableEq α] {l : Dict α β}
    (h : (l.map Prod.fst).Nodup) {a : α} {v : β} (hm : (a, v) ∈ l) :
    get? l a = some v := by
  induction l with
  | nil => cases hm
  | cons kv rest ih =>
    obtain ⟨k, w⟩ := kv
    rw [List.map_cons] at h
    have hnd := List.nodup_cons.mp h
    rcases List.mem_cons.mp hm with heq | htail
    · injection heq with h1 h2
      subst h1
      subst h2
      simp [get?]
    · have hk : k ≠ a := by
        intro he
        exact hnd.1 (by rw [he]; exact List.mem_map.mpr ⟨(a, v), htail, rfl⟩)
      simp only [get?, if_neg hk]
      exact ih hnd.2 htail

end Dict

/-!
Shape of the hex digest.
-/

theorem getD_mem_or_eq {α : Type} (l : List α) (n : Nat) (d : α) :
    l.getD n d ∈ l ∨ l.getD n d = d := by
  induction l generalizing n with
  | nil => right; cases n <;> rfl
  | cons x xs ih =>
    cases n with
    | zero => left; exact List.mem_cons_self x xs
    | succ m =>
      rcases ih m with hmem | heq
      · left; exact List.mem_cons_of_mem x hmem
      · right; exact heq

theorem hexChar_mem (n : Nat) : hexChar n ∈ hexDigitChars := by
  rcases getD_mem_or_eq hexDigitChars n '0' with hmem | heq
  · exact hmem
  · rw [hexChar, heq]; decide

theorem hexChar_contains (n : Nat) : hexDigitChars.contains (hexChar n) = true := by
  rw [List.contains]
  exact List.elem_iff.mpr (hexChar_mem n)

theorem wordHexChars_mem (w : Nat) (x : Char) (hx : x ∈ wordHexChars w) :
    x ∈ hexDigitChars := by
  simp only [wordHexChars, List.mem_cons, List.not_mem_nil, or_false] at hx
  rcases hx with h | h | h | h | h | h | h | h <;> (subst h; exact hexChar_mem _)

theorem wordHexChars_all (w : Nat) :
    (wordHexChars w).all (fun c => hexDigitChars.contains c) = true := by
  simp only [List.all_eq_true, List.contains_iff_exists_mem_beq]
  intro x hx
  exact ⟨x, wordHexChars_mem w x hx, beq_self_eq_true x⟩

theorem hsHexChars_all (H : Hs) :
    (hsHexChars H).all (fun c => hexDigitChars.contains c) = true := by
  simp only [hsHexChars, List.all_append, wordHexChars_all, Bool.and_self]

theorem hsHexChars_length (H : Hs) : (hsHexChars H).length = 64 := rfl

/-- Saving a credential makes exactly that credential check out afterwards. -/
theorem check_credentials_after_save (u d : String) (s : FSState) :
    check_credentials u d (save_user_credentials u d s) = true := by
  cases hu : s.users_file with
  | none =>
    simp [check_credentials, save_user_credentials, hu, Dict.hasKey,
      Dict.get?_insert_self]
  | some users =>
    simp [check_credentials, save_user_credentials, hu, Dict.hasKey,
      Dict.get?_insert_self]

/-- C1: `hash_password` is a pure function (two calls on the same string agree),
its output is a 64-character string of lowercase hex digits, and immediately
after `save_user_credentials(u, hash_password(p))` a call to
`check_credentials(u, hash_password(p))` returns `True`, from any starting
on-disk state. -/
theorem hash_password_spec (p u : String) (s : FSState) :
    hash_password p = hash_password p
    ∧ (hash_password p).length = 64
    ∧ (hash_password p).data.all (fun c => hexDigitChars.contains c) = true
    ∧ check_credentials u (hash_password p)
        (save_user_credentials u (hash_password p) s) = true := by
  refine ⟨rfl, ?_, ?_, check_credentials_after_save u (hash_password p) s⟩
  · exact hsHexChars_length (sha256words (strBytes p))
  · exact hsHexChars_all (sha256words (strBytes p))

/-!
Persistence and session claims.
-/

/-- Loading right after saving yields the saved holdings and timestamp. -/
theorem load_after_save (now u : String) (H : Dict String Rat) (s : FSState) :
    load_user_portfolio u (save_user_portfolio now u H s).1 = (H, now) := by
  simp [load_user_portfolio, save_user_portfolio, Dict.get?_insert_self]

/-- C3: saving a portfolio and loading it back returns exactly the holdings
that were saved, unchanged and unpruned, together with the timestamp written
by that save, whatever record existed before (save fully replaces it). -/
theorem save_load_roundtrip (now u : String) (H : Dict String Rat) (s : FSState) :
    load_user_portfolio u (save_user_portfolio now u H s).1 = (H, now) :=
  load_after_save now u H s

/-- C7: when no portfolio file exists for a username, `load_user_portfolio`
returns the empty holdings mapping and the empty timestamp (and in this total
model it cannot fail the caller). -/
theorem load_missing_empty (u : String) (s : FSState)
    (h : Dict.get? s.portfolio_files u = none) :
    load_user_portfolio u s = ([], "") := by
  simp [load_user_portfolio, h]

/-- C7 witness: a fresh state has no file for "alice". -/
theorem load_missing_empty_witness : load_user_portfolio "alice" FSInit = ([], "") :=
  load_missing_empty "alice" FSInit (by decide)

/-- C10: `save_user_credentials u d` changes no stored digest of any other
username; only the entry of `u` is inserted or overwritten. -/
theorem save_credentials_frame (u u' d : String) (s : FSState) (h : u' ≠ u) :
    storedDigest (save_user_credentials u d s) u' = storedDigest s u' := by
  have h2 : ¬ u = u' := fun he => h he.symm
  cases hu : s.users_file with
  | none =>
    simp [storedDigest, save_user_credentials, hu, Dict.get?_insert_ne _ _ _ _ h,
      Dict.get?, h2]
  | some users => simp [storedDigest, save_user_credentials, hu, Dict.get?_insert_ne _ _ _ _ h]

/-- C10 witness: saving a digest for "bob" leaves "alice"'s digest intact. -/
theorem save_credentials_frame_witness :
    storedDigest (save_user_credentials "bob" "d3adb33f"
      (⟨some [("alice", "a1ce")], []⟩ : FSState)) "alice"
      = storedDigest (⟨some [("alice", "a1ce")], []⟩ : FSState) "alice" :=
  save_credentials_frame "bob" "alice" "d3adb33f" _ (by decide)

/-- C8: whenever the credential check fails for the supplied password (digest
mismatch, unknown username, or no `users.json` at all), `login_user` returns
`False` and the session is returned unchanged: `authenticated` keeps its value
(false in the Anonymous state) and no portfolio is loaded. -/
theorem login_wrong_password (u p : String) (s : FSState) (sess : Session)
    (hc : check_credentials u (hash_password p) s = false)
    (ha : sess.authenticated = false) :
    login_user u p s sess = (sess, false)
    ∧ (login_user u p s sess).1.authenticated = false
    ∧ (login_user u p s sess).1.portfolio = sess.portfolio := by
  have hmain : login_user u p s sess = (sess, false) := by
    simp [login_user, hc]
  refine ⟨hmain, ?_, ?_⟩
  · rw [hmain]; exact ha
  · rw [hmain]

/-- C8 witness: a wrong login against a fresh disk leaves the fresh session. -/
theorem login_wrong_password_witness :
    login_user "bob" "wrong" FSInit init_session = (init_session, false) :=
  (login_wrong_password "bob" "wrong" FSInit init_session (by decide) (by decide)).1

/-- Distinct usernames use distinct portfolio filenames. -/
theorem fileOf_inj (u v : String) (h : Disk.fileOf u = Disk.fileOf v) : u = v := by
  have hd : u.data ++ ".json".data = v.data ++ ".json".data := by
    have h2 := congrArg String.data h
    simpa [Disk.fileOf, String.data_append] using h2
  exact congrArg String.mk (List.append_cancel_right hd)

/-- C4 counterexample: at the reachable username "users" the claim fails in
the program, because `f"{username}.json"` is the credential file itself.  On a
fresh disk registration returns `True`, but the empty-portfolio write
immediately overwrites the credential file, so no credential entry for "users"
remains and the just-registered password does not check out; and when only the
credential file exists (here holding an entry for "alice"), `register_user`
for "users" returns `False` although "users" has no portfolio record. -/
theorem register_users_collision_cex :
    (Disk.register_user "2024-01-01 10:00:00" "users" "pw" []).2 = true
    ∧ Disk.check_credentials "users" (hash_password "pw")
        (Disk.register_user "2024-01-01 10:00:00" "users" "pw" []).1 = false
    ∧ Disk.storedDigest
        (Disk.register_user "2024-01-01 10:00:00" "users" "pw" []).1 "users" = none
    ∧ (Disk.register_user "t" "users" "pw2"
        [(Disk.USERS_FILE, Json.obj [("alice", Json.str "a1ce")])]).2 = false :=
  ⟨rfl, rfl, rfl, rfl⟩

/-- C4 (amended): for every username other than the reserved name "users"
(whose portfolio path is the credential file itself, see the counterexample),
starting from any disk whose credential file, if present, holds a JSON object
(the only shape this program ever writes there): `register_user` returns
`False` exactly when the username already has a portfolio record; for a
username without one it returns `True`, creates a credential entry that
immediately checks out for the registered password, creates an empty portfolio
record stamped with that save's clock reading — and a second registration of
the same username, with any password, then returns `False`. -/
theorem register_user_spec (now now2 u p p2 : String) (d : DiskState)
    (hu : u ≠ "users")
    (h : Disk.user_exists u d = false)
    (hwf : Dict.get? d Disk.USERS_FILE = none
      ∨ ∃ users, Dict.get? d Disk.USERS_FILE = some (Json.obj users)) :
    (∀ now3 p3 d3, ((Disk.register_user now3 u p3 d3).2 = false
        ↔ Disk.user_exists u d3 = true))
    ∧ (Disk.register_user now u p d).2 = true
    ∧ Disk.check_credentials u (hash_password p) (Disk.register_user now u p d).1 = true
    ∧ Disk.load_user_portfolio u (Disk.register_user now u p d).1
        = (Json.obj [], Json.str now)
    ∧ (Disk.register_user now2 u p2 (Disk.register_user now u p d).1).2 = false := by
  have hgen : ∀ now3 p3 d3, ((Disk.register_user now3 u p3 d3).2 = false
      ↔ Disk.user_exists u d3 = true) := by
    intro now3 p3 d3
    by_cases he : Disk.user_exists u d3 = true
    · simp [Disk.register_user, he]
    · simp [Disk.register_user, Bool.of_not_eq_true he, he]
  have hUF : Disk.USERS_FILE ≠ Disk.fileOf u := by
    intro he
    exact hu (fileOf_inj "users" u (show Disk.fileOf "users" = Disk.fileOf u from he)).symm
  have hreg : (Disk.register_user now u p d).1
      = Dict.insert (Disk.save_user_credentials u (hash_password p) d) (Disk.fileOf u)
          (Json.obj [("portfolio", Disk.encodeHoldings []),
            ("last_updated", Json.str now)]) := by
    simp [Disk.register_user, h, Disk.save_user_portfolio]
  have hcred : ∃ users0, Dict.get? (Disk.save_user_credentials u (hash_password p) d)
      Disk.USERS_FILE
      = some (Json.obj (Dict.insert users0 u (Json.str (hash_password p)))) := by
    rcases hwf with hnone | ⟨users0, hsome⟩
    · exact ⟨[], by simp [Disk.save_user_credentials, hnone, Dict.get?_insert_self]⟩
    · exact ⟨users0, by simp [Disk.save_user_credentials, hsome, Dict.get?_insert_self]⟩
  refine ⟨hgen, by simp [Disk.register_user, h], ?_, ?_, ?_⟩
  · rcases hcred with ⟨users0, hc⟩
    have hgu : Dict.get? (Dict.insert (Disk.save_user_credentials u (hash_password p) d)
        (Disk.fileOf u) (Json.obj [("portfolio", Disk.encodeHoldings []),
          ("last_updated", Json.str now)])) Disk.USERS_FILE
        = some (Json.obj (Dict.insert users0 u (Json.str (hash_password p)))) := by
      rw [Dict.get?_insert_ne _ _ _ _ hUF, hc]
    rw [hreg]
    simp [Disk.check_credentials, hgu, Dict.get?_insert_self, Json.eqString]
  · rw [hreg]
    simp [Disk.load_user_portfolio, Dict.get?_insert_self, Dict.getD, Dict.get?,
      Disk.encodeHoldings]
  · rw [hgen now2 p2 _, hreg]
    simp [Disk.user_exists, Dict.hasKey, Dict.get?_insert_self]

/-- C4 witness: on a fresh disk, registering "bob" (not the reserved name)
succeeds once, the stored credential checks out, the portfolio record is empty
and stamped, and a second registration with a different password fails. -/
theorem register_user_spec_witness :
    (Disk.register_user "t1" "bob" "pw" []).2 = true
    ∧ Disk.check_credentials "bob" (hash_password "pw")
        (Disk.register_user "t1" "bob" "pw" []).1 = true
    ∧ Disk.load_user_portfolio "bob" (Disk.register_user "t1" "bob" "pw" []).1
        = (Json.obj [], Json.str "t1")
    ∧ (Disk.register_user "t2" "bob" "anything"
        (Disk.register_user "t1" "bob" "pw" []).1).2 = false :=
  (register_user_spec "t1" "t2" "bob" "pw" "anything" []
    (by decide) (by decide) (Or.inl rfl)).2

/-- C9: when a username already has an entry in `users.json` but no portfolio
file, `register_user` nonetheless returns `True` (the duplicate check consults
only portfolio-file existence) and overwrites the stored digest with the hash
of the newly supplied password. -/
theorem register_overwrites_digest (now u p : String) (s : FSState)
    (hcred : (storedDigest s u).isSome = true)
    (hnofile : Dict.get? s.portfolio_files u = none) :
    (register_user now u p s).2 = true
    ∧ storedDigest (register_user now u p s).1 u = some (hash_password p) := by
  have hex : user_exists u s = false := by
    simp [user_exists, hnofile]
  cases hu : s.users_file with
  | none => rw [storedDigest, hu] at hcred; cases hcred
  | some users =>
    constructor
    · simp [register_user, hex]
    · have h1 : (register_user now u p s).1.users_file
          = some (Dict.insert users u (hash_password p)) := by
        simp [register_user, hex, save_user_portfolio, save_user_credentials, hu]
      rw [storedDigest, h1]
      exact Dict.get?_insert_self users u (hash_password p)

/-- C9 witness: "bob" has a stored digest but no portfolio file; re-registering
succeeds and replaces the digest. -/
theorem register_overwrites_digest_witness :
    (register_user "t1" "bob" "pw" (⟨some [("bob", "0ld")], []⟩ : FSState)).2 = true
    ∧ storedDigest (register_user "t1" "bob" "pw"
        (⟨some [("bob", "0ld")], []⟩ : FSState)).1 "bob" = some (hash_password "pw") :=
  register_overwrites_digest "t1" "bob" "pw" _ (by decide) (by decide)

/-- C6: after the Save Changes branch, both the persisted portfolio and the
in-memory snapshot hold exactly the edited entries with strictly positive
amounts (zero and negative ones are pruned before saving), and both the stored
and the session timestamps are refreshed to the respective clock readings. -/
theorem updatePortfolio_spec (nowSave nowSession u : String)
    (edits : Dict String Rat) (s : FSState) (sess : Session) :
    load_user_portfolio u (updatePortfolio nowSave nowSession u edits s sess).1
      = (edits.filter (fun kv => decide (0 < kv.2)), nowSave)
    ∧ (updatePortfolio nowSave nowSession u edits s sess).2.portfolio
      = edits.filter (fun kv => decide (0 < kv.2))
    ∧ (updatePortfolio nowSave nowSession u edits s sess).2.last_updated = nowSession
    ∧ (∀ k v, ((k, v) ∈ (load_user_portfolio u
        (updatePortfolio nowSave nowSession u edits s sess).1).1
          ↔ (k, v) ∈ edits ∧ 0 < v)) := by
  refine ⟨load_after_save nowSave u _ s, rfl, rfl, ?_⟩
  intro k v
  rw [show (load_user_portfolio u (updatePortfolio nowSave nowSession u edits s sess).1).1
      = edits.filter (fun kv => decide (0 < kv.2)) from
    congrArg Prod.fst (load_after_save nowSave u _ s)]
  simp [List.mem_filter]

/-!
Valuation claims.
-/

/-- Summing a mapped filter equals summing with excluded entries contributing zero. -/
theorem sum_filter_eq_sum_ite (l : List (String × Rat)) (p : String × Rat → Bool)
    (f : String × Rat → Rat) :
    ((l.filter p).map f).sum = (l.map fun kv => if p kv then f kv else 0).sum := by
  induction l with
  | nil => rfl
  | cons kv rest ih =>
    by_cases hp : p kv
    · rw [List.filter_cons_of_pos hp]
      simp [hp, ih]
    · rw [List.filter_cons_of_neg hp]
      simp [hp, ih]

/-- With unique keys, iterating over the keys of a dict and looking each key up
again yields the same sum as iterating over the entries directly. -/
theorem sum_over_keys (d prices : Dict String Rat) (h : (d.map Prod.fst).Nodup) :
    ((d.map Prod.fst).map
        (fun coin => Dict.getD d coin 0 * Dict.getD prices coin 0)).sum
      = (d.map fun kv => kv.2 * Dict.getD prices kv.1 0).sum := by
  induction d with
  | nil => rfl
  | cons kv rest ih =>
    obtain ⟨k, v⟩ := kv
    rw [List.map_cons] at h
    have hnd := List.nodup_cons.mp h
    have hhead : Dict.getD ((k, v) :: rest) k 0 = v := by
      simp [Dict.getD, Dict.get?]
    have htail : (rest.map Prod.fst).map
        (fun coin => Dict.getD ((k, v) :: rest) coin 0 * Dict.getD prices coin 0)
        = (rest.map Prod.fst).map
        (fun coin => Dict.getD rest coin 0 * Dict.getD prices coin 0) := by
      refine List.map_congr_left ?_
      intro coin hcoin
      have hck : ¬ k = coin := fun he => hnd.1 (he ▸ hcoin)
      simp [Dict.getD, Dict.get?, hck]
    simp only [List.map_cons, List.map_map, List.sum_cons] at *
    rw [hhead, htail, ih hnd.2]

/-- C5: with unique held symbols, the total portfolio value is the sum of
amount times price over exactly the held symbols that have a fetched price —
held symbols without a known price contribute zero to the total — and the
per-row display contains a symbol exactly when it is held and priced. -/
theorem valuation_spec (portfolio crypto_prices : Dict String Rat)
    (h : (portfolio.map Prod.fst).Nodup) :
    total_value portfolio crypto_prices
      = (portfolio.map fun kv =>
          if Dict.hasKey crypto_prices kv.1 then kv.2 * Dict.getD crypto_prices kv.1 0
          else 0).sum
    ∧ ∀ k, Dict.hasKey (portfolio_for_display portfolio crypto_prices) k
        = (Dict.hasKey portfolio k && Dict.hasKey crypto_prices k) := by
  constructor
  · have hd : ((portfolio_for_display portfolio crypto_prices).map Prod.fst).Nodup :=
      ((List.filter_sublist portfolio).map Prod.fst).nodup h
    rw [total_value, sum_over_keys _ crypto_prices hd, portfolio_for_display,
      sum_filter_eq_sum_ite portfolio _ (fun kv => kv.2 * Dict.getD crypto_prices kv.1 0)]
  · intro k
    rw [Dict.hasKey, portfolio_for_display, Dict.get?_filter_key]
    by_cases hp : (Dict.get? crypto_prices k).isSome = true
    · simp [Dict.hasKey, hp]
    · simp [Dict.hasKey, Bool.of_not_eq_true hp]

/-- C5 witness: holdings BTC 2, ETH 1 with only BTC priced at 100 value to 200,
and ETH is excluded from the per-row display. -/
theorem valuation_spec_witness :
    total_value [("BTC", (2 : Rat)), ("ETH", 1)] [("BTC", (100 : Rat))] = 200
    ∧ Dict.hasKey (portfolio_for_display [("BTC", (2 : Rat)), ("ETH", 1)]
        [("BTC", (100 : Rat))]) "ETH" = false := by
  have h := valuation_spec [("BTC", (2 : Rat)), ("ETH", 1)] [("BTC", (100 : Rat))]
    (by decide)
  refine ⟨h.1.trans ?_, (h.2 "ETH").trans (by decide)⟩
  norm_num [Dict.hasKey, Dict.getD, Dict.get?]
  exact fun hcon => absurd hcon (by decide)

/-!
Price-fetch claims.
-/

/-- `takeWhile` passes over a prefix whose elements all satisfy the predicate. -/
theorem takeWhile_append_all {α : Type} (p : α → Bool) (a b : List α)
    (h : ∀ x ∈ a, p x = true) : (a ++ b).takeWhile p = a ++ b.takeWhile p := by
  induction a with
  | nil => rfl
  | cons x t ih =>
    rw [List.cons_append, List.takeWhile_cons, h x (List.mem_cons_self x t),
      ih (fun y hy => h y (List.mem_cons_of_mem x hy)), List.cons_append, if_pos rfl]

/-- For a dash-free symbol, `(symbol + "-USD").split('-')[0]` is the symbol itself. -/
theorem dashHead_append (s : String) (h : '-' ∉ s.data) : dashHead (s ++ "-USD") = s := by
  have hp : ∀ x ∈ s.data, (x != '-') = true := by
    intro x hx
    have hne : x ≠ '-' := fun he => h (he ▸ hx)
    simpa using hne
  rw [dashHead, String.data_append,
    show "-USD".data = ['-', 'U', 'S', 'D'] from rfl,
    takeWhile_append_all _ _ _ hp,
    show List.takeWhile (fun c => c != '-') ['-', 'U', 'S', 'D'] = [] from rfl,
    List.append_nil]

/-- For a dash-free symbol, one fetch iteration either leaves the accumulator
alone (error or empty history) or records the latest close under the symbol. -/
theorem fetchTicker_outcome (oracle : String → Except String (List Rat))
    (data : Dict String Rat) (s : String) (h : '-' ∉ s.data) :
    fetchTicker oracle data (s ++ "-USD")
      = match outcomeOf oracle s with
        | none => data
        | some v => Dict.insert data s v := by
  rw [fetchTicker, outcomeOf]
  cases ho : oracle (s ++ "-USD") with
  | error e => rfl
  | ok hist =>
    cases hh : hist.isEmpty
    · simp [hh, dashHead_append s h]
    · simp [hh]

/-- Any key of one fetch iteration's output is a key of its input or the
dash-prefix of the processed ticker. -/
theorem hasKey_fetchTicker (oracle : String → Except String (List Rat))
    (data : Dict String Rat) (t k : String)
    (h : Dict.hasKey (fetchTicker oracle data t) k = true) :
    k = dashHead t ∨ Dict.hasKey data k = true := by
  cases ho : oracle t with
  | error e =>
    simp only [fetchTicker, ho] at h
    exact Or.inr h
  | ok hist =>
    cases hh : hist.isEmpty with
    | true =>
      simp [fetchTicker, ho, hh] at h
      exact Or.inr h
    | false =>
      simp [fetchTicker, ho, hh] at h
      exact Dict.hasKey_insert _ _ _ _ h

/-- Any key accumulated by the fetch loop was present initially or is the
dash-prefix of one of the processed tickers. -/
theorem hasKey_fetch_foldl (oracle : String → Except String (List Rat)) :
    ∀ (tickers : List String) (data : Dict String Rat) (k : String),
      Dict.hasKey (tickers.foldl (fetchTicker oracle) data) k = true →
      Dict.hasKey data k = true ∨ ∃ t ∈ tickers, k = dashHead t := by
  intro tickers
  induction tickers with
  | nil => intro data k h; exact Or.inl h
  | cons t ts ih =>
    intro data k h
    rcases ih (fetchTicker oracle data t) k h with hacc | ⟨t2, ht2, hk⟩
    · rcases hasKey_fetchTicker oracle data t k hacc with hk | hdata
      · exact Or.inr ⟨t, List.mem_cons_self t ts, hk⟩
      · exact Or.inl hdata
    · exact Or.inr ⟨t2, List.mem_cons_of_mem t ht2, hk⟩

/-- What the fetch loop ends up storing under a dash-free symbol: its own
query's outcome when it was requested and succeeded, else whatever the
accumulator already had. -/
theorem get?_fetch_foldl (oracle : String → Except String (List Rat)) :
    ∀ (symbols : List String) (data : Dict String Rat) (s : String),
      '-' ∉ s.data → (∀ x ∈ symbols, '-' ∉ x.data) →
      Dict.get? ((symbols.map (fun x => x ++ "-USD")).foldl (fetchTicker oracle) data) s
        = if s ∈ symbols ∧ (outcomeOf oracle s).isSome = true then outcomeOf oracle s
          else Dict.get? data s := by
  intro symbols
  induction symbols with
  | nil =>
    intro data s hs hall
    simp
  | cons x rest ih =>
    intro data s hs hall
    have hx : '-' ∉ x.data := hall x (List.mem_cons_self x rest)
    have hrest : ∀ y ∈ rest, '-' ∉ y.data :=
      fun y hy => hall y (List.mem_cons_of_mem x hy)
    rw [List.map_cons, List.foldl_cons, ih (fetchTicker oracle data (x ++ "-USD")) s hs hrest]
    by_cases hmem : s ∈ rest ∧ (outcomeOf oracle s).isSome = true
    · rw [if_pos hmem, if_pos ⟨List.mem_cons_of_mem x hmem.1, hmem.2⟩]
    · rw [if_neg hmem]
      by_cases hxs : x = s
      · subst hxs
        rw [fetchTicker_outcome oracle data x hx]
        cases ho : outcomeOf oracle x with
        | none =>
          have hnc : ¬ (x ∈ x :: rest ∧ (none : Option Rat).isSome = true) := by simp
          rw [if_neg hnc]
        | some v =>
          rw [if_pos ⟨List.mem_cons_self x rest, rfl⟩]
          exact Dict.get?_insert_self data x v
      · have hget : Dict.get? (fetchTicker oracle data (x ++ "-USD")) s
            = Dict.get? data s := by
          rw [fetchTicker_outcome oracle data x hx]
          cases ho : outcomeOf oracle x with
          | none => rfl
          | some v => exact Dict.get?_insert_ne data x s v (fun he => hxs he.symm)
        rw [hget, if_neg]
        intro hc
        rcases List.mem_cons.mp hc.1 with he | hr
        · exact hxs he.symm
        · exact hmem ⟨hr, hc.2⟩

/-- C2 (amended): for any oracle behaviour and any requested symbols none of
which contains a dash, the fetch completes with a mapping whose keys all come
from the requested symbols, and each requested symbol is present exactly when
its own query neither raised nor returned an empty history — in which case its
value is that query's latest close (symbols whose query raised or returned no
data are omitted). -/
theorem get_crypto_data_spec (oracle : String → Except String (List Rat))
    (symbols : List String) (hnd : ∀ x ∈ symbols, '-' ∉ x.data) :
    (∀ k, Dict.hasKey (get_crypto_data oracle symbols) k = true → k ∈ symbols)
    ∧ ∀ s ∈ symbols, Dict.get? (get_crypto_data oracle symbols) s = outcomeOf oracle s := by
  constructor
  · intro k h
    rw [get_crypto_data] at h
    rcases hasKey_fetch_foldl oracle _ [] k h with hbase | ⟨t, ht, hk⟩
    · simp [Dict.hasKey, Dict.get?] at hbase
    · rcases List.mem_map.mp ht with ⟨x, hx, rfl⟩
      rw [hk, dashHead_append x (hnd x hx)]
      exact hx
  · intro s hs
    rw [get_crypto_data, get?_fetch_foldl oracle symbols [] s (hnd s hs) hnd]
    by_cases ho : (outcomeOf oracle s).isSome = true
    · rw [if_pos ⟨hs, ho⟩]
    · rw [if_neg (fun hc => ho hc.2)]
      rw [Option.not_isSome_iff_eq_none.mp ho]
      rfl

/-- C2 counterexample: for the requested symbol "A-B" (which contains a dash)
with a successful query for "A-B-USD", the returned mapping holds the key "A",
which is not one of the requested symbols — so the key set is not always a
subset of the requested symbol set. -/
theorem get_crypto_data_dash_key_cex :
    Dict.hasKey (get_crypto_data oracleDash ["A-B"]) "A" = true
    ∧ ¬ ("A" ∈ (["A-B"] : List String)) := by
  constructor
  · decide
  · decide

/-- C2 witness: with dash-free requested symbols, "BTC" (whose query succeeds)
is mapped to its latest close and "ZZZNOTACOIN" (whose query raises) is
omitted. -/
theorem get_crypto_data_spec_witness :
    Dict.get? (get_crypto_data oracleW ["BTC", "ZZZNOTACOIN"]) "BTC" = outcomeOf oracleW "BTC"
    ∧ Dict.get? (get_crypto_data oracleW ["BTC", "ZZZNOTACOIN"]) "ZZZNOTACOIN" = none := by
  have h := get_crypto_data_spec oracleW ["BTC", "ZZZNOTACOIN"] (by decide)
  refine ⟨h.2 "BTC" (by decide), ?_⟩
  rw [h.2 "ZZZNOTACOIN" (by decide)]
  rfl
